import Mathlib

/-!
Verification of the api-gateway-handlers proxy and auth-delegation pipeline.

Each definition is a shallow embedding of a function from the Go source
(file and line references in the doc comments).  Strings manipulated by the
gateway are modelled as lists of characters; Go maps with unique keys are
modelled as association lists.
-/

namespace Gateway

/-- HTTP header map, modelled as an association list from canonical header
name to the ordered list of values (Go http.Header).  Keys are unique, as
they are in a Go map. -/
abbrev Header := List (String × List String)

/-- Lookup of a header name (Go req.Header["K"] / Header.Values). -/
def headerGet (h : Header) (k : String) : Option (List String) :=
  match h with
  | [] => none
  | (k', vs) :: t => if k' = k then some vs else headerGet t k

/-- Go http.Header.Set: replace the whole value list of key k by the single
value v (creating the entry when absent). -/
def headerSet (h : Header) (k v : String) : Header :=
  match h with
  | [] => [(k, [v])]
  | (k', vs) :: t => if k' = k then (k, [v]) :: t else (k', vs) :: headerSet t k v

/-- Go http.Header.Add: append v to the value list of key k (creating the
entry when absent). -/
def headerAdd (h : Header) (k v : String) : Header :=
  match h with
  | [] => [(k, [v])]
  | (k', vs) :: t => if k' = k then (k', vs ++ [v]) :: t else (k', vs) :: headerAdd t k v

/-- Forwarding of one inbound header entry, src/proxy.go lines 126-134 (also
src/proxy_external.go lines 60-67 and 111-118): when the value list is
non-empty, Set the first value and Add the remaining ones. -/
def forwardValues (h : Header) (k : String) (vs : List String) : Header :=
  match vs with
  | [] => h
  | v :: rest => rest.foldl (fun h' v' => headerAdd h' k v') (headerSet h k v)

/-- The header-forwarding loop of src/proxy.go lines 126-134: iterate over
every inbound entry, applying the set-then-append discipline to the outbound
header map (which may already hold values, e.g. the clone made by the
reverse-proxy director). -/
def forwardHeaders (inbound : Header) (out : Header) : Header :=
  inbound.foldl (fun h p => forwardValues h p.1 p.2) out

lemma headerGet_headerSet_self (h : Header) (k v : String) :
    headerGet (headerSet h k v) k = some [v] := by
  induction h with
  | nil => simp [headerSet, headerGet]
  | cons p t ih =>
    obtain ⟨k', vs⟩ := p
    by_cases hk : k' = k
    · simp [headerSet, hk, headerGet]
    · simp [headerSet, hk, headerGet, ih]

lemma headerGet_headerSet_ne (h : Header) (k k' v : String) (hne : k' ≠ k) :
    headerGet (headerSet h k' v) k = headerGet h k := by
  induction h with
  | nil => simp [headerSet, headerGet, hne]
  | cons p t ih =>
    obtain ⟨k₀, vs⟩ := p
    by_cases hk : k₀ = k'
    · subst hk
      simp [headerSet, headerGet, hne]
    · by_cases hk2 : k₀ = k
      · simp [headerSet, hk, headerGet, hk2, Ne.symm hne]
      · simp [headerSet, hk, headerGet, hk2, ih]

lemma headerGet_headerAdd_self (h : Header) (k v : String) :
    headerGet (headerAdd h k v) k = some (((headerGet h k).getD []) ++ [v]) := by
  induction h with
  | nil => simp [headerAdd, headerGet]
  | cons p t ih =>
    obtain ⟨k', vs⟩ := p
    by_cases hk : k' = k
    · simp [headerAdd, hk, headerGet]
    · simp [headerAdd, hk, headerGet, ih]

lemma headerGet_headerAdd_ne (h : Header) (k k' v : String) (hne : k' ≠ k) :
    headerGet (headerAdd h k' v) k = headerGet h k := by
  induction h with
  | nil => simp [headerAdd, headerGet, hne]
  | cons p t ih =>
    obtain ⟨k₀, vs⟩ := p
    by_cases hk : k₀ = k'
    · subst hk
      simp [headerAdd, headerGet, hne]
    · by_cases hk2 : k₀ = k
      · simp [headerAdd, hk, headerGet, hk2, Ne.symm hne]
      · simp [headerAdd, hk, headerGet, hk2, ih]

lemma headerGet_foldl_headerAdd (rest : List String) (h : Header) (k : String)
    (acc : List String) (hacc : headerGet h k = some acc) :
    headerGet (rest.foldl (fun h' v' => headerAdd h' k v') h) k = some (acc ++ rest) := by
  induction rest generalizing h acc with
  | nil => simpa using hacc
  | cons v rest ih =>
    have hstep : headerGet (headerAdd h k v) k = some (acc ++ [v]) := by
      rw [headerGet_headerAdd_self, hacc]
      rfl
    have := ih (headerAdd h k v) (acc ++ [v]) hstep
    simpa [List.append_assoc] using this

lemma headerGet_foldl_headerAdd_ne (rest : List String) (h : Header) (k k' : String)
    (hne : k' ≠ k) :
    headerGet (rest.foldl (fun h' v' => headerAdd h' k' v') h) k = headerGet h k := by
  induction rest generalizing h with
  | nil => rfl
  | cons v rest ih =>
    rw [List.foldl_cons, ih, headerGet_headerAdd_ne _ _ _ _ hne]

lemma headerGet_forwardValues_self (h : Header) (k : String) (vs : List String)
    (hvs : vs ≠ []) : headerGet (forwardValues h k vs) k = some vs := by
  match vs with
  | [] => exact absurd rfl hvs
  | v :: rest =>
    unfold forwardValues
    exact headerGet_foldl_headerAdd rest _ k [v] (headerGet_headerSet_self h k v)

lemma headerGet_forwardValues_ne (h : Header) (k k' : String) (vs : List String)
    (hne : k' ≠ k) : headerGet (forwardValues h k' vs) k = headerGet h k := by
  match vs with
  | [] => rfl
  | v :: rest =>
    unfold forwardValues
    rw [headerGet_foldl_headerAdd_ne _ _ _ _ hne, headerGet_headerSet_ne _ _ _ _ hne]

lemma headerGet_forwardHeaders_not_mem (t : Header) (h : Header) (k : String)
    (hk : k ∉ t.map Prod.fst) : headerGet (forwardHeaders t h) k = headerGet h k := by
  induction t generalizing h with
  | nil => rfl
  | cons p t ih =>
    obtain ⟨k₀, vs₀⟩ := p
    simp only [List.map_cons, List.mem_cons] at hk
    push_neg at hk
    unfold forwardHeaders
    rw [List.foldl_cons]
    have := ih (forwardValues h k₀ vs₀) hk.2
    unfold forwardHeaders at this
    rw [this, headerGet_forwardValues_ne h k k₀ vs₀ (Ne.symm hk.1)]

/-- C1: after the forwarding loop, every inbound header name with a non-empty
value list maps to exactly that value list, in order, whatever values the
outbound map already held; forwarding a second time (a further proxy hop over
the same inbound values) yields the same list, so values never accumulate. -/
theorem forwarded_header_values_exact (inbound out : Header) (k : String)
    (vs : List String) (hmem : (k, vs) ∈ inbound)
    (hnodup : (inbound.map Prod.fst).Nodup) (hvs : vs ≠ []) :
    headerGet (forwardHeaders inbound out) k = some vs ∧
    headerGet (forwardHeaders inbound (forwardHeaders inbound out)) k = some vs := by
  have main : ∀ o : Header, headerGet (forwardHeaders inbound o) k = some vs := by
    intro o
    induction inbound generalizing o with
    | nil => exact absurd hmem (by simp)
    | cons p t ih =>
      obtain ⟨k₀, vs₀⟩ := p
      simp only [List.map_cons, List.nodup_cons] at hnodup
      unfold forwardHeaders
      rw [List.foldl_cons]
      rcases List.mem_cons.mp hmem with hhead | htail
      · obtain ⟨hk, hv⟩ := Prod.mk.injEq .. ▸ hhead
        subst hk; subst hv
        have hframe := headerGet_forwardHeaders_not_mem t (forwardValues o k vs) k hnodup.1
        unfold forwardHeaders at hframe
        rw [hframe, headerGet_forwardValues_self _ _ _ hvs]
      · have ih' := ih htail hnodup.2
        exact ih' (forwardValues o k₀ vs₀)
  exact ⟨main out, main (forwardHeaders inbound out)⟩

/-- Witness for C1 at a concrete two-valued header, with the outbound map
already polluted by a duplicated value. -/
theorem forwarded_header_values_exact_witness :
    headerGet (forwardHeaders [("X-Foo", ["a", "b"])] [("X-Foo", ["a", "a", "b"])])
      "X-Foo" = some ["a", "b"] ∧
    headerGet (forwardHeaders [("X-Foo", ["a", "b"])]
      (forwardHeaders [("X-Foo", ["a", "b"])] [("X-Foo", ["a", "a", "b"])]))
      "X-Foo" = some ["a", "b"] :=
  forwarded_header_values_exact [("X-Foo", ["a", "b"])] [("X-Foo", ["a", "a", "b"])]
    "X-Foo" ["a", "b"] (by simp) (by simp) (by simp)

/-- Conditional identity-header Set of src/proxy.go lines 141-151: the value
is set only when the auth middleware put it into the context (some) and it is
non-empty. -/
def setOptionalHeader (h : Header) (k : String) (v : Option String) : Header :=
  match v with
  | some s => if s ≠ "" then headerSet h k s else h
  | none => h

/-- Forwarding-header decoration of src/proxy.go lines 136-151: after the
copy loop, Set X-Forwarded-For and X-Real-IP to the client IP and
X-Forwarded-Proto to the literal string given there, then Set X-User-ID /
X-User-Email when the auth middleware supplied non-empty values. -/
def addForwardingHeaders (h : Header) (clientIP : String)
    (userID email : Option String) : Header :=
  setOptionalHeader
    (setOptionalHeader
      (headerSet (headerSet (headerSet h "X-Forwarded-For" clientIP)
        "X-Forwarded-Proto" "http") "X-Real-IP" clientIP)
      "X-User-ID" userID)
    "X-User-Email" email

/-- Full outbound header construction of the director in src/proxy.go lines
110-152: the reverse proxy starts from a clone of the inbound headers, the
loop re-forwards every inbound entry, then the forwarding metadata is set. -/
def buildOutboundHeaders (inbound : Header) (clientIP : String)
    (userID email : Option String) : Header :=
  addForwardingHeaders (forwardHeaders inbound inbound) clientIP userID email

/-- Scheme detection getScheme of the auth helper file: https when the
inbound connection is TLS, otherwise the inbound X-Forwarded-Proto header
value when non-empty, otherwise http.  The inbound header value is passed as
xfProto (empty string when the header is absent, as gin GetHeader does). -/
def getScheme (tls : Bool) (xfProto : String) : String :=
  if tls then "https" else if xfProto ≠ "" then xfProto else "http"

lemma headerGet_setOptionalHeader_ne (h : Header) (k k' : String)
    (v : Option String) (hne : k' ≠ k) :
    headerGet (setOptionalHeader h k' v) k = headerGet h k := by
  rcases v with _ | s
  · rfl
  · by_cases hs : s = ""
    · simp [setOptionalHeader, hs]
    · simp [setOptionalHeader, hs, headerGet_headerSet_ne h k k' s hne]

lemma headerGet_addForwardingHeaders_user_free (h : Header) (ip : String)
    (uid em : Option String) (k : String)
    (h1 : k ≠ "X-User-ID") (h2 : k ≠ "X-User-Email") :
    headerGet (addForwardingHeaders h ip uid em) k =
      headerGet (headerSet (headerSet (headerSet h "X-Forwarded-For" ip)
        "X-Forwarded-Proto" "http") "X-Real-IP" ip) k := by
  unfold addForwardingHeaders
  rw [headerGet_setOptionalHeader_ne _ _ _ _ (Ne.symm h2),
    headerGet_setOptionalHeader_ne _ _ _ _ (Ne.symm h1)]

/-- C8, corrected: every outbound proxied request carries X-Forwarded-For and
X-Real-IP equal to the client IP, and X-Forwarded-Proto equal to the fixed
literal http, whatever the inbound headers and identity facts were. -/
theorem outbound_forwarding_headers (inbound : Header) (ip : String)
    (uid em : Option String) :
    headerGet (buildOutboundHeaders inbound ip uid em) "X-Forwarded-For" = some [ip] ∧
    headerGet (buildOutboundHeaders inbound ip uid em) "X-Real-IP" = some [ip] ∧
    headerGet (buildOutboundHeaders inbound ip uid em) "X-Forwarded-Proto" = some ["http"] := by
  unfold buildOutboundHeaders
  refine ⟨?_, ?_, ?_⟩ <;>
    rw [headerGet_addForwardingHeaders_user_free _ _ _ _ _ (by decide) (by decide)]
  · rw [headerGet_headerSet_ne _ _ _ _ (by decide), headerGet_headerSet_ne _ _ _ _ (by decide),
      headerGet_headerSet_self]
  · rw [headerGet_headerSet_self]
  · rw [headerGet_headerSet_ne _ _ _ _ (by decide), headerGet_headerSet_self]

/-- C8, counterexample to the claim as stated: on a TLS inbound request the
detected scheme is https, yet the outbound X-Forwarded-Proto is the literal
http, so the header does not equal the detected scheme. -/
theorem outbound_proto_not_detected_scheme :
    headerGet (buildOutboundHeaders [] "1.2.3.4" none none) "X-Forwarded-Proto"
        = some ["http"] ∧
    getScheme true "" = "https" ∧
    some ["http"] ≠ some [getScheme true ""] := by
  exact ⟨by decide, rfl, by decide⟩

/-- C10: getScheme returns https exactly on TLS; on non-TLS it returns the
client-supplied X-Forwarded-Proto header verbatim when non-empty, and http
only when that header is absent or empty. -/
theorem getScheme_spec (tls : Bool) (xfProto : String) :
    (tls = true → getScheme tls xfProto = "https") ∧
    (tls = false → xfProto ≠ "" → getScheme tls xfProto = xfProto) ∧
    (tls = false → xfProto = "" → getScheme tls xfProto = "http") := by
  refine ⟨fun h => ?_, fun h hne => ?_, fun h he => ?_⟩ <;>
    subst h <;> simp [getScheme, *]

/-- Witness for C10 at concrete inputs covering all three branches. -/
theorem getScheme_spec_witness :
    getScheme true "" = "https" ∧ getScheme false "wss" = "wss" ∧
    getScheme false "" = "http" :=
  ⟨(getScheme_spec true "").1 rfl, (getScheme_spec false "wss").2.1 rfl (by decide),
    (getScheme_spec false "").2.2 rfl rfl⟩

/-- Go strings.Replace(s, pat, rep, 1) for a non-empty pattern: scan left to
right and replace only the first occurrence, leaving the rest of the string
untouched.  (The Go corner case of an empty pattern never arises: the only
pattern used by the gateway is the placeholder :id.) -/
def replaceFirst : List Char → List Char → List Char → List Char
  | [], _, _ => []
  | c :: t, pat, rep =>
    if pat.isPrefixOf (c :: t) then rep ++ (c :: t).drop pat.length
    else c :: replaceFirst t pat rep

/-- Go strings.Contains(s, pat) for the same use site. -/
def containsSub : List Char → List Char → Bool
  | [], pat => pat.isEmpty
  | c :: t, pat => pat.isPrefixOf (c :: t) || containsSub t pat

/-- The placeholder recognised by the path builder. -/
def idPlaceholder : List Char := [':', 'i', 'd']

/-- Path-template resolution of src/proxy.go lines 113-118: when the template
contains :id, substitute the bound parameter with strings.Replace(..., 1),
i.e. first occurrence only. -/
def buildTargetPath (targetPath idVal : List Char) : List Char :=
  if containsSub targetPath idPlaceholder then replaceFirst targetPath idPlaceholder idVal
  else targetPath

lemma replaceFirst_of_isPrefixOf (s pat rep : List Char) (hne : pat ≠ [])
    (hpre : pat.isPrefixOf s = true) :
    replaceFirst s pat rep = rep ++ s.drop pat.length := by
  match s with
  | [] =>
    cases pat with
    | nil => exact absurd rfl hne
    | cons c t => simp [List.isPrefixOf] at hpre
  | c :: t => simp [replaceFirst, hpre]

lemma containsSub_append_self (pre suf : List Char) (pat : List Char)
    (hne : pat ≠ []) : containsSub (pre ++ pat ++ suf) pat = true := by
  induction pre with
  | nil =>
    have : pat.isPrefixOf (pat ++ suf) = true :=
      List.isPrefixOf_iff_prefix.mpr (List.prefix_append pat suf)
    cases pat with
    | nil => exact absurd rfl hne
    | cons c t => simp [containsSub, this]
  | cons c pre ih => simpa [containsSub] using Or.inr ih

/-- C2, amended: when the first occurrence of :id in the template starts at
position pre.length (no occurrence starts inside pre), the resolved path is
pre ++ value ++ suffix: the first occurrence alone is replaced and no other
substring of the template is altered.  Later occurrences of :id inside the
suffix are left untouched. -/
theorem buildTargetPath_first_occurrence (pre suf idVal : List Char)
    (hpre : ∀ i, i < pre.length →
      idPlaceholder.isPrefixOf ((pre ++ idPlaceholder ++ suf).drop i) = false) :
    buildTargetPath (pre ++ idPlaceholder ++ suf) idVal = pre ++ idVal ++ suf := by
  have hne : idPlaceholder ≠ [] := by decide
  unfold buildTargetPath
  rw [containsSub_append_self pre suf idPlaceholder hne]
  simp only [if_pos]
  induction pre with
  | nil =>
    rw [List.nil_append, List.nil_append,
      replaceFirst_of_isPrefixOf _ _ _ hne
        (List.isPrefixOf_iff_prefix.mpr (List.prefix_append idPlaceholder suf)),
      List.drop_left]
  | cons c pre ih =>
    have h0 := hpre 0 (by simp)
    have hstep : ∀ i, i < pre.length →
        idPlaceholder.isPrefixOf ((pre ++ idPlaceholder ++ suf).drop i) = false := by
      intro i hi
      have := hpre (i + 1) (by simpa using Nat.succ_lt_succ hi)
      simpa using this
    have hnotpre : idPlaceholder.isPrefixOf (c :: (pre ++ (idPlaceholder ++ suf))) = false := by
      simpa [List.append_assoc] using h0
    simp only [List.cons_append]
    rw [replaceFirst, if_neg (by simp [← List.isPrefixOf_iff_prefix, hnotpre]), ih hstep]

/-- Witness for C2's amended theorem on the template /users/:id with value 7. -/
theorem buildTargetPath_first_occurrence_witness :
    buildTargetPath ("/users/:id".toList) ("7".toList) = "/users/7".toList := by
  have e1 : "/users/:id".toList = "/users/".toList ++ idPlaceholder ++ [] := by decide
  have e2 : "/users/".toList ++ "7".toList ++ [] = "/users/7".toList := by decide
  rw [e1, buildTargetPath_first_occurrence "/users/".toList [] "7".toList (by decide), e2]

/-- C2, counterexample to the claim as stated: in a template with two
occurrences of :id only the first is substituted, so the result differs from
the every-occurrence substitution the claim demands. -/
theorem buildTargetPath_second_occurrence_untouched :
    buildTargetPath ("/users/:id/items/:id".toList) ("7".toList)
        = "/users/7/items/:id".toList ∧
    "/users/7/items/:id".toList ≠ "/users/7/items/7".toList := by
  constructor
  · decide
  · decide

/-- Location-header rewrite of src/proxy_response.go lines 63-68: when the
response carries a non-empty Location that starts with / and does not already
start with the configured prefix, prepend the prefix; otherwise leave it. -/
def rewriteLocation (pathPrefix location : List Char) : List Char :=
  if !location.isEmpty && ['/'].isPrefixOf location && !pathPrefix.isPrefixOf location
  then pathPrefix ++ location
  else location

/-- Fuel-indexed scan implementing Go strings.ReplaceAll for a non-empty
pattern: replace every non-overlapping occurrence, left to right, without
rescanning the replacement text.  Fuel bounds the recursion; body length is
always a sufficient fuel. -/
def replaceAllAux : Nat → List Char → List Char → List Char → List Char
  | 0, s, _, _ => s
  | _ + 1, [], _, _ => []
  | fuel + 1, c :: t, pat, rep =>
    if pat.isPrefixOf (c :: t) then
      rep ++ replaceAllAux fuel ((c :: t).drop pat.length) pat rep
    else c :: replaceAllAux fuel t pat rep

/-- Go strings.ReplaceAll(s, pat, rep) for the non-empty patterns used by the
body rewrite. -/
def replaceAll (s pat rep : List Char) : List Char :=
  replaceAllAux s.length s pat rep

/-- HTML body rewrite of src/proxy_response.go lines 79-90: unconditionally
substitute the three attribute-opening patterns, inserting the prefix after
the quote. -/
def rewriteHTMLBody (pathPrefix body : List Char) : List Char :=
  let b1 := replaceAll body ("action=\"/".toList)
    ("action=\"".toList ++ pathPrefix ++ ['/'])
  let b2 := replaceAll b1 ("href=\"/".toList)
    ("href=\"".toList ++ pathPrefix ++ ['/'])
  replaceAll b2 ("src=\"/".toList)
    ("src=\"".toList ++ pathPrefix ++ ['/'])

lemma rewriteLocation_of_prefixed (p loc : List Char)
    (h : p.isPrefixOf loc = true) : rewriteLocation p loc = loc := by
  simp [rewriteLocation, h]

lemma rewriteLocation_of_not_slash (p loc : List Char)
    (h : (['/'].isPrefixOf loc) = false) : rewriteLocation p loc = loc := by
  simp [rewriteLocation, h]

lemma rewriteLocation_eq_append (p loc : List Char)
    (h1 : ['/'].isPrefixOf loc = true) (h2 : p.isPrefixOf loc = false) :
    rewriteLocation p loc = p ++ loc := by
  cases loc with
  | nil => simp [List.isPrefixOf] at h1
  | cons c t => simp [rewriteLocation, h1, h2]

/-- C6: the Location rewrite prepends the prefix exactly when the value
starts with / and does not already start with the prefix, and it is
idempotent: a second application changes nothing; under prefix /p the value
/dashboard becomes /p/dashboard and /p/dashboard stays unchanged. -/
theorem rewriteLocation_idempotent (p loc : List Char) :
    rewriteLocation p (rewriteLocation p loc) = rewriteLocation p loc ∧
    (['/'].isPrefixOf loc = true → p.isPrefixOf loc = false →
      rewriteLocation p loc = p ++ loc) ∧
    (['/'].isPrefixOf loc = false → rewriteLocation p loc = loc) ∧
    (p.isPrefixOf loc = true → rewriteLocation p loc = loc) ∧
    rewriteLocation ("/p".toList) ("/dashboard".toList) = "/p/dashboard".toList ∧
    rewriteLocation ("/p".toList) ("/p/dashboard".toList) = "/p/dashboard".toList := by
  refine ⟨?_, fun h1 h2 => rewriteLocation_eq_append p loc h1 h2,
    fun h1 => rewriteLocation_of_not_slash p loc h1,
    fun h2 => rewriteLocation_of_prefixed p loc h2, by decide, by decide⟩
  by_cases h2 : p.isPrefixOf loc = true
  · rw [rewriteLocation_of_prefixed p loc h2, rewriteLocation_of_prefixed p loc h2]
  · by_cases h1 : ['/'].isPrefixOf loc = true
    · have h2' : p.isPrefixOf loc = false := Bool.eq_false_iff.mpr h2
      have hself : p.isPrefixOf (p ++ loc) = true :=
        List.isPrefixOf_iff_prefix.mpr (List.prefix_append p loc)
      rw [rewriteLocation_eq_append p loc h1 h2',
        rewriteLocation_of_prefixed p (p ++ loc) hself]
    · have h1' : (['/'].isPrefixOf loc) = false := Bool.eq_false_iff.mpr h1
      rw [rewriteLocation_of_not_slash p loc h1', rewriteLocation_of_not_slash p loc h1']

/-- Witness for C6 at a concrete prefix and location. -/
theorem rewriteLocation_idempotent_witness :
    rewriteLocation ("/p".toList) ("/dash".toList) = "/p".toList ++ "/dash".toList :=
  (rewriteLocation_idempotent ("/p".toList) ("/dash".toList)).2.1 (by decide) (by decide)

/-- C5, counterexample to the claim as stated: under prefix /p an HTML href
path that already starts with /p is double-prefixed by the body rewrite, so
the rewrite does alter a path already starting with the prefix. -/
theorem html_rewrite_double_prefixes :
    rewriteHTMLBody ("/p".toList) ("<a href=\"/p/x\">".toList)
        = "<a href=\"/p/p/x\">".toList ∧
    "<a href=\"/p/p/x\">".toList ≠ "<a href=\"/p/x\">".toList := by
  constructor
  · decide
  · decide

/-- C5, amended: the never-double-prefixed invariant holds for the Location
header rewrite, whose guard leaves any value already starting with the prefix
as-is; the HTML attribute rewrite has no such guard and prepends the prefix
even to an attribute path already starting with it (shown under prefix /p). -/
theorem location_rewrite_never_double_prefixes (p loc : List Char)
    (h : p.isPrefixOf loc = true) :
    rewriteLocation p loc = loc ∧
    rewriteHTMLBody ("/p".toList) ("<a href=\"/p/x\">".toList)
        = "<a href=\"/p/p/x\">".toList :=
  ⟨rewriteLocation_of_prefixed p loc h, by decide⟩

/-- Witness for C5's amended theorem at a concrete prefixed location. -/
theorem location_rewrite_never_double_prefixes_witness :
    rewriteLocation ("/p".toList) ("/p/dash".toList) = "/p/dash".toList :=
  (location_rewrite_never_double_prefixes ("/p".toList) ("/p/dash".toList) (by decide)).1

/-- Go http.SameSite modes. -/
inductive SameSite
  | defaultMode
  | laxMode
  | strictMode
  | noneMode
deriving DecidableEq

/-- Go http.Cookie, restricted to the fields the session-cookie translator
reads or writes. -/
structure SetCookie where
  name : String
  value : String
  path : String
  domain : String
  maxAge : Int
  httpOnly : Bool
  secure : Bool
  sameSite : SameSite
deriving DecidableEq

/-- Authelia-related configuration read by the handlers. -/
structure AutheliaConfig where
  sessionCookieName : String
  sessionDomain : String
deriving DecidableEq

/-- Cookie-clearing directive clearSessionCookie of the auth helper file:
empty value, MaxAge -1, Path /, the configured session domain, HttpOnly,
Secure iff the inbound connection is TLS, SameSite Lax. -/
def clearSessionCookie (cfg : AutheliaConfig) (tls : Bool) : SetCookie :=
  { name := cfg.sessionCookieName, value := "", path := "/",
    domain := cfg.sessionDomain, maxAge := -1, httpOnly := true,
    secure := tls, sameSite := SameSite.laxMode }

/-- Observable part of a gateway response: HTTP status, the structured error
code of the JSON body for error responses, and the Set-Cookie directives
emitted, in order. -/
structure GatewayResponse where
  status : Nat
  errorCode : Option String
  setCookies : List SetCookie
deriving DecidableEq

/-- Logout handler of src/authelia_logout.go lines 47-72, modelled from the
point where the upstream call is issued: none is a transport error from the
identity provider, some cs a response whose parsed Set-Cookie headers are cs
(the handler ignores the upstream status).  Both branches answer 200 and
emit the gateway's own clearing directive; the success branch forwards the
upstream cookies first. -/
def logout (cfg : AutheliaConfig) (tls : Bool)
    (upstream : Option (List SetCookie)) : GatewayResponse :=
  match upstream with
  | none => { status := 200, errorCode := none,
              setCookies := [clearSessionCookie cfg tls] }
  | some cs => { status := 200, errorCode := none,
                 setCookies := cs ++ [clearSessionCookie cfg tls] }

/-- C3: every logout response has status 200 and contains the clearing
directive for the configured session-cookie name (empty value, MaxAge -1),
whether or not the upstream logout call failed; on upstream success every
upstream Set-Cookie is forwarded as well. -/
theorem logout_always_clears (cfg : AutheliaConfig) (tls : Bool)
    (upstream : Option (List SetCookie)) :
    (logout cfg tls upstream).status = 200 ∧
    clearSessionCookie cfg tls ∈ (logout cfg tls upstream).setCookies ∧
    (clearSessionCookie cfg tls).name = cfg.sessionCookieName ∧
    (clearSessionCookie cfg tls).value = "" ∧
    (clearSessionCookie cfg tls).maxAge = -1 ∧
    (∀ cs, upstream = some cs →
      ∀ ck ∈ cs, ck ∈ (logout cfg tls upstream).setCookies) := by
  rcases upstream with _ | cs
  · exact ⟨rfl, by simp [logout], rfl, rfl, rfl, fun cs h => by cases h⟩
  · refine ⟨rfl, by simp [logout], rfl, rfl, rfl, fun cs' h ck hck => ?_⟩
    cases h
    simp [logout, hck]

/-- Witness for C3: a failed upstream call and a successful one with a
forwarded upstream cookie, at a concrete configuration. -/
theorem logout_always_clears_witness :
    (logout ⟨"authelia_session", "example.com"⟩ false none).status = 200 ∧
    clearSessionCookie ⟨"authelia_session", "example.com"⟩ false ∈
      (logout ⟨"authelia_session", "example.com"⟩ false none).setCookies ∧
    (⟨"other", "v", "/", "up.internal", 0, false, false, SameSite.defaultMode⟩ : SetCookie) ∈
      (logout ⟨"authelia_session", "example.com"⟩ false
        (some [⟨"other", "v", "/", "up.internal", 0, false, false, SameSite.defaultMode⟩])).setCookies := by
  obtain ⟨h1, h2, -, -, -, -⟩ :=
    logout_always_clears ⟨"authelia_session", "example.com"⟩ false none
  obtain ⟨-, -, -, -, -, h6⟩ :=
    logout_always_clears ⟨"authelia_session", "example.com"⟩ false
      (some [⟨"other", "v", "/", "up.internal", 0, false, false, SameSite.defaultMode⟩])
  exact ⟨h1, h2, h6 _ rfl _ (by simp)⟩

/-- Session-cookie translation of handleLoginResponse (authelia login
handler, 200 branch): a forwarded cookie whose name equals the configured
session-cookie name gets the public domain, Path /, HttpOnly, Secure iff the
inbound connection is TLS, and SameSite Lax; any other cookie is unchanged. -/
def translateCookie (cfg : AutheliaConfig) (tls : Bool) (ck : SetCookie) : SetCookie :=
  if ck.name = cfg.sessionCookieName then
    { ck with
        domain := cfg.sessionDomain, path := "/", httpOnly := true,
        secure := tls, sameSite := SameSite.laxMode }
  else ck

/-- Status dispatch of handleLoginResponse (authelia login handler): 200
forwards the translated upstream cookies, 401 yields INVALID_CREDENTIALS,
anything else yields AUTH_SERVICE_ERROR with HTTP 500.  The JSON success body
(user object, redirect) is not modelled; the JWT variant of the handler only
adds fields to that body. -/
def handleLoginResponse (cfg : AutheliaConfig) (tls : Bool) (upstreamStatus : Nat)
    (cookies : List SetCookie) : GatewayResponse :=
  if upstreamStatus = 200 then
    { status := 200, errorCode := none,
      setCookies := cookies.map (translateCookie cfg tls) }
  else if upstreamStatus = 401 then
    { status := 401, errorCode := some "INVALID_CREDENTIALS", setCookies := [] }
  else
    { status := 500, errorCode := some "AUTH_SERVICE_ERROR", setCookies := [] }

/-- Upstream-status dispatch of GetSession (authelia session handler): any
non-200 upstream status yields UNAUTHORIZED; on 200 the body must parse as
JSON (parsed), else INTERNAL_ERROR. -/
def getSessionDispatch (upstreamStatus : Nat) (parsed : Bool) : GatewayResponse :=
  if upstreamStatus ≠ 200 then
    { status := 401, errorCode := some "UNAUTHORIZED", setCookies := [] }
  else if parsed then
    { status := 200, errorCode := none, setCookies := [] }
  else
    { status := 500, errorCode := some "INTERNAL_ERROR", setCookies := [] }

/-- C4: on upstream 200 every upstream cookie is forwarded (translated, in
order); the cookie named like the configured session cookie gets Domain =
public session domain, Path /, HttpOnly, Secure iff TLS, SameSite Lax while
keeping its name and value; every other cookie passes through unmodified. -/
theorem login_success_cookie_policy (cfg : AutheliaConfig) (tls : Bool)
    (cookies : List SetCookie) (ck : SetCookie) (hmem : ck ∈ cookies) :
    (handleLoginResponse cfg tls 200 cookies).setCookies
        = cookies.map (translateCookie cfg tls) ∧
    translateCookie cfg tls ck ∈ (handleLoginResponse cfg tls 200 cookies).setCookies ∧
    (ck.name = cfg.sessionCookieName →
      (translateCookie cfg tls ck).domain = cfg.sessionDomain ∧
      (translateCookie cfg tls ck).path = "/" ∧
      (translateCookie cfg tls ck).httpOnly = true ∧
      (translateCookie cfg tls ck).secure = tls ∧
      (translateCookie cfg tls ck).sameSite = SameSite.laxMode ∧
      (translateCookie cfg tls ck).name = ck.name ∧
      (translateCookie cfg tls ck).value = ck.value ∧
      (translateCookie cfg tls ck).maxAge = ck.maxAge) ∧
    (ck.name ≠ cfg.sessionCookieName → translateCookie cfg tls ck = ck) := by
  refine ⟨by simp [handleLoginResponse], ?_, fun hn => ?_, fun hn => ?_⟩
  · simp only [handleLoginResponse, if_pos rfl]
    exact List.mem_map_of_mem (translateCookie cfg tls) hmem
  · simp [translateCookie, hn]
  · simp [translateCookie, hn]

/-- Witness for C4 with one session cookie and one unrelated cookie. -/
theorem login_success_cookie_policy_witness :
    (handleLoginResponse ⟨"sess", "pub.example.com"⟩ true 200
      [⟨"sess", "abc", "", "authelia.internal", 0, false, false, SameSite.defaultMode⟩,
       ⟨"other", "v", "/x", "d", 3, false, false, SameSite.strictMode⟩]).setCookies
      = [⟨"sess", "abc", "/", "pub.example.com", 0, true, true, SameSite.laxMode⟩,
         ⟨"other", "v", "/x", "d", 3, false, false, SameSite.strictMode⟩] := by
  have h := login_success_cookie_policy ⟨"sess", "pub.example.com"⟩ true
    [⟨"sess", "abc", "", "authelia.internal", 0, false, false, SameSite.defaultMode⟩,
     ⟨"other", "v", "/x", "d", 3, false, false, SameSite.strictMode⟩]
    ⟨"sess", "abc", "", "authelia.internal", 0, false, false, SameSite.defaultMode⟩
    (by simp)
  rw [h.1]
  decide

/-- C9, counterexample to the claim as stated: the session call with an
unexpected upstream status 500 answers UNAUTHORIZED (HTTP 401), not
AUTH_SERVICE_ERROR. -/
theorem session_unexpected_status_unauthorized :
    (getSessionDispatch 500 true).errorCode = some "UNAUTHORIZED" ∧
    (getSessionDispatch 500 true).status = 401 ∧
    (getSessionDispatch 500 true).errorCode ≠ some "AUTH_SERVICE_ERROR" := by
  refine ⟨rfl, rfl, by decide⟩

/-- C9, amended: on an upstream status that is neither 200 nor 401, the login
call answers AUTH_SERVICE_ERROR (HTTP 500), while the session call maps every
non-200 status, including unexpected ones, to UNAUTHORIZED (HTTP 401). -/
theorem unexpected_upstream_status_error_codes (cfg : AutheliaConfig) (tls : Bool)
    (cookies : List SetCookie) (upstreamStatus : Nat) (parsed : Bool)
    (h200 : upstreamStatus ≠ 200) (h401 : upstreamStatus ≠ 401) :
    (handleLoginResponse cfg tls upstreamStatus cookies).errorCode
        = some "AUTH_SERVICE_ERROR" ∧
    (handleLoginResponse cfg tls upstreamStatus cookies).status = 500 ∧
    (getSessionDispatch upstreamStatus parsed).errorCode = some "UNAUTHORIZED" ∧
    (getSessionDispatch upstreamStatus parsed).status = 401 := by
  refine ⟨?_, ?_, ?_, ?_⟩ <;> simp [handleLoginResponse, getSessionDispatch, h200, h401]

/-- Witness for C9's amended theorem at upstream status 503. -/
theorem unexpected_upstream_status_error_codes_witness :
    (handleLoginResponse ⟨"sess", "pub.example.com"⟩ false 503 []).errorCode
        = some "AUTH_SERVICE_ERROR" ∧
    (getSessionDispatch 503 true).errorCode = some "UNAUTHORIZED" := by
  obtain ⟨h1, -, h3, -⟩ := unexpected_upstream_status_error_codes
    ⟨"sess", "pub.example.com"⟩ false [] 503 true (by decide) (by decide)
  exact ⟨h1, h3⟩

/-- Go strings.Index(email, "@") as used by the login handler: position of
the first '@', none when absent. -/
def firstAtIndex : List Char → Option Nat
  | [] => none
  | c :: t => if c = '@' then some 0 else (firstAtIndex t).map (· + 1)

/-- Username derivation of the authelia login handler: start from the whole
email and, only when the first '@' sits at a positive index, keep the part
before it (the Go code guards the slice with idx > 0). -/
def loginUsername (email : List Char) : List Char :=
  match firstAtIndex email with
  | some idx => if 0 < idx then email.take idx else email
  | none => email

/-- Login request body accepted by the gateway (AutheliaLoginRequest). -/
structure AutheliaLoginRequest where
  email : List Char
  password : String
  keepMeLoggedIn : Bool
  targetURL : String

/-- Body sent to the identity provider's first-factor endpoint
(autheliaFirstFactorRequest). -/
structure FirstFactorRequest where
  username : List Char
  password : String
  keepMeLoggedIn : Bool
  targetURL : String
deriving DecidableEq

/-- Conversion performed by the login handler before calling the first-factor
endpoint: map email to username, pass every other field through. -/
def buildFirstFactorRequest (req : AutheliaLoginRequest) : FirstFactorRequest :=
  { username := loginUsername req.email, password := req.password,
    keepMeLoggedIn := req.keepMeLoggedIn, targetURL := req.targetURL }

/-- Amended spec-side username rule, for comparison with the code: the
substring before the first '@' when that substring is a proper and non-empty
prefix of the email; otherwise the whole email. -/
def usernameSpecAmended (email : List Char) : List Char :=
  let pre := email.takeWhile (fun c => c != '@')
  if pre ≠ email ∧ pre ≠ [] then pre else email

lemma takeWhile_eq_self_of_firstAtIndex_none (t : List Char)
    (h : firstAtIndex t = none) : t.takeWhile (fun c => c != '@') = t := by
  induction t with
  | nil => rfl
  | cons c t ih =>
    by_cases hc : c = '@'
    · simp [firstAtIndex, hc] at h
    · simp only [firstAtIndex, hc, if_false, Option.map_eq_none'] at h
      simp [List.takeWhile_cons, hc, ih h]

lemma take_firstAtIndex (t : List Char) (j : Nat) (h : firstAtIndex t = some j) :
    t.take j = t.takeWhile (fun c => c != '@') ∧
    (t.takeWhile (fun c => c != '@')).length = j ∧ j < t.length := by
  induction t generalizing j with
  | nil => simp [firstAtIndex] at h
  | cons c t ih =>
    by_cases hc : c = '@'
    · subst hc
      have hj : j = 0 := by
        simp [firstAtIndex] at h
        omega
      subst hj
      have hq : (('@' : Char) != '@') = false := by decide
      simp [List.takeWhile_cons, hq]
    · rw [firstAtIndex, if_neg hc, Option.map_eq_some'] at h
      obtain ⟨j', hj', rfl⟩ := h
      obtain ⟨h1, h2, h3⟩ := ih j' hj'
      have hpc : (c != '@') = true := by simp [hc]
      refine ⟨?_, ?_, ?_⟩
      · simp [List.take_succ_cons, List.takeWhile_cons, hpc, h1]
      · simp [List.takeWhile_cons, hpc, h2]
      · simpa using Nat.succ_lt_succ h3

/-- C7, amended: the first-factor body passes password, keepMeLoggedIn and
targetURL through unchanged, and its username is the substring of the email
before the first '@' when that substring is non-empty and proper; an email
with no '@', or one beginning with '@', is passed through whole. -/
theorem first_factor_request_fields (req : AutheliaLoginRequest) :
    (buildFirstFactorRequest req).password = req.password ∧
    (buildFirstFactorRequest req).keepMeLoggedIn = req.keepMeLoggedIn ∧
    (buildFirstFactorRequest req).targetURL = req.targetURL ∧
    (buildFirstFactorRequest req).username = usernameSpecAmended req.email := by
  refine ⟨rfl, rfl, rfl, ?_⟩
  show loginUsername req.email = usernameSpecAmended req.email
  generalize req.email = email
  rcases hfa : firstAtIndex email with _ | j
  · simp only [loginUsername, hfa]
    rw [usernameSpecAmended]
    simp [takeWhile_eq_self_of_firstAtIndex_none email hfa]
  · rcases Nat.eq_zero_or_pos j with rfl | hj
    · simp only [loginUsername, hfa]
      rw [if_neg (Nat.lt_irrefl 0)]
      cases email with
      | nil => simp [firstAtIndex] at hfa
      | cons c t =>
        by_cases hc : c = '@'
        · subst hc
          have hq : (('@' : Char) != '@') = false := by decide
          rw [usernameSpecAmended]
          simp [List.takeWhile_cons, hq]
        · exfalso
          rw [firstAtIndex, if_neg hc, Option.map_eq_some'] at hfa
          obtain ⟨j', -, hj'⟩ := hfa
          omega
    · obtain ⟨h1, h2, h3⟩ := take_firstAtIndex email j hfa
      simp only [loginUsername, hfa]
      rw [if_pos hj, usernameSpecAmended]
      have hne1 : email.takeWhile (fun c => c != '@') ≠ email := by
        intro he
        rw [he] at h2
        omega
      have hne2 : email.takeWhile (fun c => c != '@') ≠ [] := by
        intro he
        rw [he] at h2
        simp at h2
        omega
      simp [hne1, hne2, h1]

/-- C7, counterexample to the claim as stated: for an email beginning with
'@' the substring before the first '@' is empty, yet the username sent to
the first-factor endpoint is the whole email. -/
theorem login_username_not_truncated_at_zero :
    loginUsername ("@x".toList) = "@x".toList ∧
    ("@x".toList).takeWhile (fun c => c != '@') = [] ∧
    "@x".toList ≠ ([] : List Char) := by
  refine ⟨by decide, by decide, by decide⟩

end Gateway
